import Mathlib

/-!
Shallow embedding of the `fhe_fixed_torus` Rust crate (`src/lib.rs`).

The crate defines a single type `Torus`, a fixed-point value on the unit
circle backed by a `u32` (`TorusRepr`).  Machine integers are modelled as
`Fin (2^32)` / explicit `% 2^32` arithmetic on `Nat`.  The `f64` values
flowing through the conversions are modelled as exact rationals: every
floating-point operation is given its exact real-number semantics over `ℚ`
(the `u32 -> f64` casts involved are exact in IEEE double precision, and the
concrete inputs used in the closed theorems below are points where the IEEE
computation is itself exact, e.g. `x / x = 1` and small integer products).
Rust's saturating `as` cast from `f64` to `u32` is modelled explicitly.
-/

/-- The backing representation size: `TorusRepr = u32`, so `2^32` values. -/
def TorusReprSize : ℕ := 2 ^ 32

/-- Embeds `pub struct Torus { inner: TorusRepr }`: a fixed-point value backed
by a `u32`, here a natural number below `2^32`. -/
structure Torus where
  inner : Fin TorusReprSize
  deriving DecidableEq

/-- Embeds `const SHIFT: u32 = TorusRepr::MAX;` — note the source sets this
constant to `u32::MAX = 2^32 - 1`, not to `2^32`. -/
def Torus.SHIFT : ℕ := 2 ^ 32 - 1

/-- Embeds `Torus::new(inner: TorusRepr) -> Torus`: stores the raw value
verbatim (the spec's `fromRaw`). -/
def Torus.new (inner : Fin TorusReprSize) : Torus :=
  { inner := inner }

/-- Embeds `Torus::sign(&self) -> i32`:
`if self.inner < (Torus::SHIFT / 2) { 1 } else { -1 }`.
`SHIFT / 2` is `u32` integer division, so the threshold is
`(2^32 - 1) / 2 = 2^31 - 1`. -/
def Torus.sign (t : Torus) : ℤ :=
  if t.inner.val < Torus.SHIFT / 2 then 1 else -1

/-- Embeds `Zero::zero()` (and the `ConstZero::ZERO` constant): inner 0. -/
def Torus.zero : Torus :=
  { inner := ⟨0, by norm_num [TorusReprSize]⟩ }

/-- Embeds `Zero::is_zero(&self) -> bool`: `self.inner == 0`. -/
def Torus.is_zero (t : Torus) : Bool :=
  t.inner.val == 0

/-- Embeds `impl Add for Torus`: `self.inner.wrapping_add(other.inner)`,
i.e. addition modulo `2^32`. -/
def Torus.add (a b : Torus) : Torus :=
  { inner := ⟨(a.inner.val + b.inner.val) % TorusReprSize,
      Nat.mod_lt _ (by norm_num [TorusReprSize])⟩ }

/-- Embeds `impl Sub for Torus`: `self.inner.wrapping_sub(other.inner)`,
i.e. subtraction modulo `2^32`; since `b.inner < 2^32`, the wrapped result
is `(a.inner + 2^32 - b.inner) % 2^32`. -/
def Torus.sub (a b : Torus) : Torus :=
  { inner := ⟨(a.inner.val + TorusReprSize - b.inner.val) % TorusReprSize,
      Nat.mod_lt _ (by norm_num [TorusReprSize])⟩ }

/-- Embeds `impl Neg for Torus`: `self.inner.wrapping_neg()`, i.e.
`(2^32 - inner) % 2^32`. -/
def Torus.neg (t : Torus) : Torus :=
  { inner := ⟨(TorusReprSize - t.inner.val) % TorusReprSize,
      Nat.mod_lt _ (by norm_num [TorusReprSize])⟩ }

/-- Embeds the Rust cast `rhs as TorusRepr` for `rhs : i32`: the
two's-complement reinterpretation of a signed 32-bit integer as a `u32`,
i.e. reduction modulo `2^32` (nonnegative representative). -/
def i32ToRepr (k : ℤ) : ℕ :=
  (k % (2 ^ 32 : ℤ)).toNat

/-- Embeds `impl Mul<i32> for Torus`:
`self.inner.wrapping_mul(rhs as TorusRepr)` (the spec's `mulScalarInt`). -/
def Torus.mulScalarInt (a : Torus) (k : ℤ) : Torus :=
  { inner := ⟨(a.inner.val * i32ToRepr k) % TorusReprSize,
      Nat.mod_lt _ (by norm_num [TorusReprSize])⟩ }

/-- Embeds the Rust cast `x as TorusRepr` for `x : f64`: since Rust 1.45 the
float-to-integer `as` cast saturates — negative values go to `0`, values at
or above `2^32` go to `u32::MAX = 2^32 - 1`, and in-range values are
truncated toward zero (`NaN`, which goes to 0, has no rational model). -/
def f64ToRepr (x : ℚ) : ℕ :=
  if x < 0 then 0
  else if (TorusReprSize : ℚ) ≤ x then TorusReprSize - 1
  else (⌊x⌋).toNat

theorem f64ToRepr_lt (x : ℚ) : f64ToRepr x < TorusReprSize := by
  unfold f64ToRepr
  split
  · norm_num [TorusReprSize]
  · split
    · norm_num [TorusReprSize]
    · rename_i h0 hlt
      push_neg at h0 hlt
      have hfl : ⌊x⌋ < (TorusReprSize : ℤ) := by
        exact_mod_cast Int.floor_lt.mpr (by exact_mod_cast hlt)
      simp only [TorusReprSize] at hfl ⊢
      omega

/-- Embeds `impl Mul<f64> for Torus`:
`(self.inner as f64 * rhs) as TorusRepr` (the spec's `mulScalarReal`); the
`u32 -> f64` cast of `inner` is exact, the product is modelled exactly over
`ℚ`, and the final cast saturates as `f64ToRepr`. -/
def Torus.mulScalarReal (a : Torus) (k : ℚ) : Torus :=
  { inner := ⟨f64ToRepr ((a.inner.val : ℚ) * k), f64ToRepr_lt _⟩ }

/-- Embeds `f % 1.0` for `f : f64` (exact in IEEE, modelled over `ℚ`): the
remainder after removing the integer part truncated toward zero. -/
def fmodOne (f : ℚ) : ℚ :=
  f - (if f < 0 then (⌈f⌉ : ℚ) else (⌊f⌋ : ℚ))

/-- Embeds `f.rem_euclid(1.0)`: Rust computes `r = self % 1.0` and adds
`1.0` when `r` is negative. -/
def remEuclidOne (f : ℚ) : ℚ :=
  if fmodOne f < 0 then fmodOne f + 1 else fmodOne f

/-- Embeds `impl From<f64> for Torus` (the spec's `fromReal`):
`let f = f.rem_euclid(1.0); let inner = (f * (Torus::SHIFT as f64)) as TorusRepr`.
Note the scale factor is `SHIFT = 2^32 - 1`, as in the source. -/
def Torus.fromF64 (f : ℚ) : Torus :=
  { inner := ⟨f64ToRepr (remEuclidOne f * (Torus.SHIFT : ℚ)), f64ToRepr_lt _⟩ }

/-- Embeds `impl From<Torus> for f64` (the spec's `toReal`):
`(t.inner as f64) / (Torus::SHIFT as f64)`, the exact rational value of the
division; the divisor is `SHIFT = 2^32 - 1`, as in the source. -/
def Torus.toReal (t : Torus) : ℚ :=
  (t.inner.val : ℚ) / (Torus.SHIFT : ℚ)

/-- Outcome of `Torus::normal`: the Rust signature returns a bare `Torus`, so
the only possible outcomes are a value or a panic-equivalent abort — there is
no error channel in the type. -/
inductive NormalOutcome where
  | panic : NormalOutcome
  | val : Torus → NormalOutcome
  deriving DecidableEq

/-- Embeds `Torus::normal(std: f64, state: &mut impl Rng) -> Torus`.
Modelled from the spec for the external `statrs` crate (its source is not in
the repository): `statrs::distribution::Normal::new(0., std)` fails when
`std` is negative or non-finite (non-finite values have no rational model).
The source then calls `.unwrap()` on that result, which aborts via panic on
the error; otherwise the Gaussian sample (here an oracle parameter standing
for the randomness) is encoded with `Torus::from`. -/
def Torus.normal (std : ℚ) (sample : ℚ) : NormalOutcome :=
  if std < 0 then NormalOutcome.panic
  else NormalOutcome.val (Torus.fromF64 sample)

theorem Torus.eq_of_val {a b : Torus} (h : a.inner.val = b.inner.val) :
    a = b := by
  cases a with
  | mk x =>
    cases b with
    | mk y =>
      cases x
      cases y
      simp only at h
      subst h
      rfl

theorem Torus.add_neg_val (a : Torus) : (a.add a.neg).inner.val = 0 := by
  have h := a.inner.isLt
  simp only [Torus.add, Torus.neg, TorusReprSize] at *
  omega

/-- C1: the spec says `toReal` computes `inner / 2^W` and always lies in
[0, 1), in particular `toReal(fromRaw(2^32 - 1)) < 1`.  The code divides by
`SHIFT = u32::MAX = 2^32 - 1` instead, so at `inner = 2^32 - 1` the result
is exactly 1 — contradicting the code's own doc comment `0 <= t < 1`. -/
theorem Torus.toReal_at_max_eq_one :
    Torus.toReal (Torus.new ⟨4294967295, by norm_num [TorusReprSize]⟩) = 1 := by
  norm_num [Torus.toReal, Torus.new, Torus.SHIFT]

/-- C2: the spec says `sign` returns +1 exactly when `inner < 2^(W-1) = 2^31`,
so in particular `sign(fromRaw(2^31 - 1)) = +1`.  The code compares against
`SHIFT / 2 = (2^32 - 1) / 2 = 2^31 - 1`, so at `inner = 2^31 - 1` it returns
-1, diverging from the documented boundary. -/
theorem Torus.sign_at_half_boundary_eq_neg_one :
    Torus.sign (Torus.new ⟨2147483647, by norm_num [TorusReprSize]⟩) = -1 := by
  norm_num [Torus.sign, Torus.new, Torus.SHIFT]

/-- C3 counterexample: `normal(-1.0, rng)` does not report a recoverable
construction error — the source unwraps the failed `statrs` construction, so
the outcome is the panic abort (the return type has no error channel). -/
theorem Torus.normal_neg_one_is_panic :
    Torus.normal (-1) 0 = NormalOutcome.panic := by
  norm_num [Torus.normal]

/-- C3 (amended): calling `normal` with a negative standard deviation aborts
via panic — the `Normal::new` construction fails and the source calls
`.unwrap()` on it — rather than returning a value or a recoverable error. -/
theorem Torus.normal_neg_std_panics (std sample : ℚ) (h : std < 0) :
    Torus.normal std sample = NormalOutcome.panic := by
  simp [Torus.normal, h]

theorem Torus.normal_neg_std_panics_witness :
    Torus.normal (-2) (1/2) = NormalOutcome.panic :=
  Torus.normal_neg_std_panics (-2) (1/2) (by norm_num)

/-- C4 counterexample: the spec formula `inner = floor(a.inner * k) mod 2^W`
fails at `a.inner = 1`, `k = -1`: the code's saturating `as` cast yields 0,
while the claimed wraparound formula yields `2^32 - 1`. -/
theorem Torus.mulScalarReal_not_wrapping_at_neg_one :
    ((Torus.mulScalarReal
        (Torus.new ⟨1, by norm_num [TorusReprSize]⟩) (-1)).inner.val : ℤ) ≠
      ⌊(((Torus.new ⟨1, by norm_num [TorusReprSize]⟩).inner.val : ℚ)) * (-1)⌋
        % (2 ^ 32 : ℤ) := by
  norm_num [Torus.mulScalarReal, Torus.new, f64ToRepr]

/-- C4 (amended): `mulScalarReal` computes the saturating truncation of the
product `a.inner * k`: negative products clamp to 0, products at or above
`2^32` clamp to `2^32 - 1`, and in-range products truncate — the `as` cast
saturates rather than wrapping modulo `2^32`. -/
theorem Torus.mulScalarReal_saturates (a : Torus) (k : ℚ) :
    ((a.mulScalarReal k).inner.val : ℤ) =
      max 0 (min ((2 ^ 32 : ℤ) - 1) ⌊((a.inner.val : ℚ)) * k⌋) := by
  simp only [Torus.mulScalarReal, f64ToRepr, TorusReprSize]
  split
  · rename_i hneg
    have hfl : ⌊((a.inner.val : ℚ)) * k⌋ < (0 : ℤ) := by
      exact_mod_cast Int.floor_lt.mpr (by exact_mod_cast hneg)
    omega
  · split
    · rename_i h0 hge
      have hfl : ((2 : ℤ) ^ 32) ≤ ⌊((a.inner.val : ℚ)) * k⌋ := by
        apply Int.le_floor.mpr
        exact_mod_cast hge
      omega
    · rename_i h0 hlt
      push_neg at h0 hlt
      have hfl0 : (0 : ℤ) ≤ ⌊((a.inner.val : ℚ)) * k⌋ := by
        apply Int.le_floor.mpr
        exact_mod_cast h0
      have hfl : ⌊((a.inner.val : ℚ)) * k⌋ < ((2 : ℤ) ^ 32) := by
        exact_mod_cast Int.floor_lt.mpr (by exact_mod_cast hlt)
      omega

theorem Torus.mulScalarReal_saturates_witness :
    ((Torus.mulScalarReal (Torus.new ⟨3, by norm_num [TorusReprSize]⟩)
        (5/2)).inner.val : ℤ) =
      max 0 (min ((2 ^ 32 : ℤ) - 1)
        ⌊(((Torus.new ⟨3, by norm_num [TorusReprSize]⟩).inner.val : ℚ)) * (5/2)⌋) :=
  Torus.mulScalarReal_saturates (Torus.new ⟨3, by norm_num [TorusReprSize]⟩) (5/2)

theorem remEuclidOne_eq_fract (f : ℚ) : remEuclidOne f = f - ⌊f⌋ := by
  unfold remEuclidOne fmodOne
  by_cases hf : f < 0
  · simp only [hf, if_true]
    by_cases hr : f - (⌈f⌉ : ℚ) < 0
    · simp only [hr, if_true]
      have h1 : (⌊f⌋ : ℚ) ≤ f := Int.floor_le f
      have h2 : ⌈f⌉ ≤ ⌊f⌋ + 1 := Int.ceil_le_floor_add_one f
      have h3 : ⌊f⌋ < ⌈f⌉ := by
        have : f < (⌈f⌉ : ℚ) := by linarith
        exact_mod_cast lt_of_le_of_lt h1 this
      have h4 : ⌈f⌉ = ⌊f⌋ + 1 := by omega
      rw [h4]
      push_cast
      ring
    · simp only [hr, if_false]
      have h1 : f ≤ (⌈f⌉ : ℚ) := Int.le_ceil f
      have h2 : f = (⌈f⌉ : ℚ) := by linarith
      have h3 : ⌊f⌋ = ⌈f⌉ := by
        have h4 := congrArg (fun x : ℚ => ⌊x⌋) h2
        simpa using h4
      rw [h3]
  · simp only [hf, if_false]
    have h1 : ¬ (f - (⌊f⌋ : ℚ) < 0) := by
      have := Int.floor_le f
      linarith
    simp only [h1, if_false]

/-- C5: periodicity of the encoding — for every real `f` and integer `k`,
`fromReal(f + k) = fromReal(f)`: the conversion depends only on the Euclidean
fractional part of its input. -/
theorem Torus.fromF64_periodic (f : ℚ) (k : ℤ) :
    Torus.fromF64 (f + k) = Torus.fromF64 f := by
  apply Torus.eq_of_val
  have hrem : remEuclidOne (f + k) = remEuclidOne f := by
    rw [remEuclidOne_eq_fract, remEuclidOne_eq_fract, Int.floor_add_int]
    push_cast
    ring
  simp only [Torus.fromF64, hrem]

/-- C6: `add` is addition modulo `2^32` on the raw values; adding
`fromRaw(2^31)` to itself wraps to raw 0; addition is commutative; and
`fromRaw(0)` (= `zero`) is its identity. -/
theorem Torus.add_mod_spec :
    (∀ a b : Torus, (a.add b).inner.val = (a.inner.val + b.inner.val) % 2 ^ 32) ∧
    (Torus.add (Torus.new ⟨2 ^ 31, by norm_num [TorusReprSize]⟩)
      (Torus.new ⟨2 ^ 31, by norm_num [TorusReprSize]⟩)).inner.val = 0 ∧
    (∀ a b : Torus, a.add b = b.add a) ∧
    (∀ a : Torus, a.add Torus.zero = a ∧ Torus.zero.add a = a) := by
  refine ⟨?_, ?_, ?_, ?_⟩
  · intro a b
    simp [Torus.add, TorusReprSize]
  · norm_num [Torus.add, Torus.new, TorusReprSize]
  · intro a b
    apply Torus.eq_of_val
    simp [Torus.add, Nat.add_comm]
  · intro a
    have h := a.inner.isLt
    constructor
    · apply Torus.eq_of_val
      simp [Torus.add, Torus.zero, Nat.mod_eq_of_lt h]
    · apply Torus.eq_of_val
      simp [Torus.add, Torus.zero, Nat.mod_eq_of_lt h]

/-- C7: `neg` computes `(2^32 - inner) mod 2^32` on the raw values, and
`t.add(t.neg())` has raw value 0 for every `t`. -/
theorem Torus.neg_mod_spec :
    (∀ t : Torus, t.neg.inner.val = (2 ^ 32 - t.inner.val) % 2 ^ 32) ∧
    (∀ t : Torus, (t.add t.neg).inner.val = 0) := by
  constructor
  · intro t
    simp [Torus.neg, TorusReprSize]
  · intro t
    exact t.add_neg_val

/-- C8: subtraction undoes addition exactly — `(a + b) - b = a` for all
Torus values, with wraparound at every raw value. -/
theorem Torus.add_sub_cancel_spec :
    ∀ a b : Torus, (a.add b).sub b = a := by
  intro a b
  apply Torus.eq_of_val
  have ha := a.inner.isLt
  have hb := b.inner.isLt
  simp only [Torus.add, Torus.sub, TorusReprSize] at *
  omega

/-- C9: scalar multiplication by the `i32` value -1 coincides with negation:
the multiplier is reinterpreted in two's complement as `2^32 - 1`, and the
wrapping multiply by it equals the wrapping negation. -/
theorem Torus.mulScalarInt_neg_one_eq_neg :
    ∀ a : Torus, a.mulScalarInt (-1) = a.neg := by
  intro a
  apply Torus.eq_of_val
  have ha := a.inner.isLt
  have hk : i32ToRepr (-1) = 4294967295 := by decide
  simp only [Torus.mulScalarInt, Torus.neg, hk, TorusReprSize] at *
  omega

/-- C10: `zero` has inner 0, `is_zero` holds exactly when the raw value is 0,
and `is_zero` holds for `a + (-a)` for every `a`. -/
theorem Torus.zero_spec :
    Torus.zero.inner.val = 0 ∧
    (∀ t : Torus, t.is_zero = true ↔ t.inner.val = 0) ∧
    (∀ a : Torus, (a.add a.neg).is_zero = true) := by
  refine ⟨rfl, ?_, ?_⟩
  · intro t
    simp [Torus.is_zero]
  · intro a
    simp [Torus.is_zero, a.add_neg_val]
